import Mathlib

/-!
Shallow embedding of the Itadaki Street prototype's turn-resolution and
economy engine (`src/main.rs`).  Window/camera setup, sprite and text
rendering, UI panels and input polling are presentation-only and are not
modelled; likewise the Bevy repeating timer that paces `bot_turns` and the
token-sprite updates at the end of `advance_player`.  The ambient
`rand::thread_rng()` draws (the die roll in `bot_turns` and the Chance cash
delta in `handle_tile`) are injected as explicit parameters, which is the
spec's randomness seam.  Machine integers: `i32`/`usize` values are modelled
as `Int`/`Nat`; the cast chain in the position update of `advance_player`,
where wraparound is observable, is modelled exactly with explicit
`% 2^32` / `% 2^64`; the bank-salary computation, which the source performs
in IEEE-754 binary32 arithmetic (`net_worth as f32 * 0.1) as i32`), is
modelled exactly by an integer mantissa/exponent emulation of binary32
round-to-nearest-even followed by truncation toward zero.
-/

/-- The four collectible suits (`enum Suit`). -/
inductive Suit where
  | spade
  | heart
  | diamond
  | club
deriving DecidableEq, Fintype

/-- Tile kinds (`enum TileKind`).  A `Property` carries its district name,
purchase price and base fee. -/
inductive TileKind where
  | bank
  | property (district : String) (price : Int) (base_fee : Int)
  | suit (s : Suit)
  | chance
deriving DecidableEq

/-- A board tile (`struct Tile`).  `position` is the grid coordinate of the
tile on the square track; the source stores it scaled by `TILE_SIZE` and
offset by `-1.5 * TILE_SIZE`, a fixed affine display transform consumed by
no rule, so the unscaled grid pair is kept. -/
structure Tile where
  index : Nat
  position : Int × Int
  kind : TileKind
deriving DecidableEq

instance : Inhabited Tile := ⟨⟨0, (0, 0), .bank⟩⟩

/-- `enum PlayerKind`. -/
inductive PlayerKind where
  | human
  | bot
deriving DecidableEq

/-- `struct PlayerState`.  `stocks` is the `HashMap<&str, i32>` of stock
holdings (only its value multiset is ever consumed, via a sum); `properties`
and `suits` are the `HashSet`s of owned tile indices and collected suits. -/
structure PlayerState where
  name : String
  kind : PlayerKind
  cash : Int
  stocks : List (String × Int)
  properties : Finset Nat
  suits : Finset Suit
  position : Nat
  level : Nat
deriving DecidableEq

/-- `Default` for `PlayerState` (Rust `#[derive(Default)]`, with
`PlayerKind::default() = Human`). -/
instance : Inhabited PlayerState :=
  ⟨{ name := "", kind := .human, cash := 0, stocks := [], properties := ∅,
     suits := ∅, position := 0, level := 0 }⟩

/-- The game session (`struct Game`).  `district_shop_count` is the
`HashMap<&str, usize>` of purchased-shop counts, modelled as its lookup
function (absent keys read 0, matching `Entry::or_default`). -/
structure Game where
  board : List Tile
  players : List PlayerState
  current_turn : Nat
  district_shop_count : String → Nat

/-- Price contributed by tile `i` of the board to a net worth: the price if
it is a property tile, 0 otherwise (`filter_map` with a `Property` match). -/
def tilePriceAt (board : List Tile) (i : Nat) : Int :=
  match (board.getD i default).kind with
  | .property _ price _ => price
  | _ => 0

/-- `PlayerState::net_worth`: cash plus the prices of owned property tiles
plus the sum of stock holdings. -/
def PlayerState.net_worth (p : PlayerState) (board : List Tile) : Int :=
  p.cash + (∑ i in p.properties, tilePriceAt board i) + (p.stocks.map Prod.snd).sum

/-- Round-to-nearest, ties-to-even, of `a / 2^k` (natural `a`). -/
def rne (a k : Nat) : Nat :=
  if k = 0 then a
  else
    let q := a / 2 ^ k
    let r := a % 2 ^ k
    let h := 2 ^ (k - 1)
    if h < r then q + 1
    else if r < h then q
    else if q % 2 = 0 then q else q + 1

/-- Fuel-based binary logarithm, agreeing with `Nat.log2` for arguments
below `2 ^ fuel`; structural recursion so that proofs can evaluate it. -/
def log2Aux : Nat → Nat → Nat
  | 0, _ => 0
  | fuel + 1, n => if n ≤ 1 then 0 else log2Aux fuel (n / 2) + 1

/-- Round the exact value `m * 2^e` to an IEEE-754 binary32 value, returned
as a mantissa/exponent pair (value = first * 2 ^ second).  Exact for values
in the binary32 normal range, which covers every value arising from the
salary computation on `i32` net worths. -/
def roundF32 (m : Int) (e : Int) : Int × Int :=
  let a := m.natAbs
  if a < 2 ^ 24 then (m, e)
  else
    let k := log2Aux 64 a - 23
    (m.sign * rne a k, e + k)

/-- `n as f32` for an integer `n`. -/
def f32OfInt (n : Int) : Int × Int := roundF32 n 0

/-- The `f32` literal `0.1` (mantissa 13421773, exponent -27). -/
def tenthF32 : Int × Int := (13421773, -27)

/-- binary32 multiplication: round the exact product. -/
def f32Mul (x y : Int × Int) : Int × Int := roundF32 (x.1 * y.1) (x.2 + y.2)

/-- Rust `as i32` from `f32`: truncation toward zero. -/
def f32TruncToInt (x : Int × Int) : Int :=
  if 0 ≤ x.2 then x.1 * 2 ^ x.2.toNat
  else x.1.sign * (x.1.natAbs / 2 ^ (-x.2).toNat)

/-- The bank salary paid on a level-up:
`500 + (net_worth as f32 * 0.1) as i32`. -/
def bankSalary (nw : Int) : Int :=
  500 + f32TruncToInt (f32Mul (f32OfInt nw) tenthF32)

/-- The 17-entry kind layout of `generate_board`. -/
def layout : List TileKind :=
  [ .bank,
    .property "Downtown" 300 80,
    .suit .spade,
    .property "Downtown" 320 90,
    .chance,
    .property "Plaza" 280 75,
    .suit .heart,
    .property "Plaza" 260 70,
    .chance,
    .property "Harbor" 350 95,
    .suit .diamond,
    .property "Harbor" 360 105,
    .chance,
    .property "Grove" 240 60,
    .suit .club,
    .property "Grove" 260 65,
    .chance ]

/-- The 12 grid coordinates of the square track laid out by
`generate_board` (`for x in 0..4`, `for y in 1..4`, `for x in (0..3).rev()`,
`for y in (1..3).rev()`). -/
def coords : List (Int × Int) :=
  ((List.range 4).map fun x => ((x : Int), 0))
    ++ ((List.range 3).map fun y => (3, (y : Int) + 1))
    ++ (((List.range 3).reverse).map fun x => ((x : Int), 3))
    ++ (((List.range 2).reverse).map fun y => (0, (y : Int) + 1))

/-- `generate_board`: zip the kind layout with the track coordinates and
enumerate.  `List.zip` truncates to the shorter list, exactly as Rust's
`Iterator::zip` does. -/
def generate_board : List Tile :=
  ((layout.zip coords).enum).map fun ik =>
    { index := ik.1, position := ik.2.2, kind := ik.2.1 }

/-- Wrap an integer into `i32` range (two's complement). -/
def wrapI32 (x : Int) : Int := (x + 2147483648) % 4294967296 - 2147483648

/-- `usize as i32` (truncate to 32 bits, reinterpret signed). -/
def usizeToI32 (n : Nat) : Int := wrapI32 (n : Int)

/-- `i32 as usize` on a 64-bit target (sign-extend, reinterpret unsigned). -/
def i32ToUsize (x : Int) : Nat := (x % 18446744073709551616).toNat

/-- The position update of `advance_player`:
`((player.position as i32 + roll) as usize) % board_len`, with the `i32`
addition wrapping. -/
def newPosition (pos : Nat) (roll : Int) (boardLen : Nat) : Nat :=
  i32ToUsize (wrapI32 (usizeToI32 pos + roll)) % boardLen

/-- Replace player `i` of the session (Rust's in-place mutation of
`game.players[i]`; `List.set` is the identity when `i` is out of range,
where Rust would panic — every theorem about it carries an in-range
hypothesis). -/
def setPlayer (g : Game) (i : Nat) (p : PlayerState) : Game :=
  { g with players := g.players.set i p }

/-- `handle_tile`: resolve the tile the player landed on.  `chanceDelta` is
the injected `thread_rng().gen_range(-150..=200)` draw of the Chance arm. -/
def handle_tile (tile_index : Nat) (kind : TileKind) (player_idx : Nat)
    (chanceDelta : Int) (g : Game) : Game :=
  match kind with
  | .bank =>
      let p := g.players.getD player_idx default
      if p.suits.card = 4 then
        let p1 := { p with level := p.level + 1 }
        let salary := bankSalary (p1.net_worth g.board)
        setPlayer g player_idx { p1 with cash := p1.cash + salary, suits := ∅ }
      else g
  | .property district price base_fee =>
      match g.players.findIdx? (fun q => decide (tile_index ∈ q.properties)) with
      | some owner_idx =>
          if owner_idx = player_idx then g
          else
            let payer := g.players.getD player_idx default
            let g1 := setPlayer g player_idx { payer with cash := payer.cash - base_fee }
            let receiver := g1.players.getD owner_idx default
            setPlayer g1 owner_idx { receiver with cash := receiver.cash + base_fee }
      | none =>
          let buyer := g.players.getD player_idx default
          if price ≤ buyer.cash then
            { g with
              players := g.players.set player_idx
                { buyer with
                  cash := buyer.cash - price,
                  properties := insert tile_index buyer.properties },
              district_shop_count := fun d =>
                if d = district then g.district_shop_count d + 1
                else g.district_shop_count d }
          else g
  | .suit s =>
      let p := g.players.getD player_idx default
      setPlayer g player_idx { p with suits := insert s p.suits }
  | .chance =>
      let p := g.players.getD player_idx default
      setPlayer g player_idx { p with cash := p.cash + chanceDelta }

/-- `advance_player`: move the player by `roll` (mod board length) and
resolve the landed tile.  The token-sprite update at the end of the source
function is display-only and not modelled. -/
def advance_player (player_idx : Nat) (roll : Int) (chanceDelta : Int)
    (g : Game) : Game :=
  let board_len := g.board.length
  let p := g.players.getD player_idx default
  let g1 := setPlayer g player_idx
    { p with position := newPosition p.position roll board_len }
  let tile_index := (g1.players.getD player_idx default).position
  let tile_kind := (g1.board.getD tile_index default).kind
  handle_tile tile_index tile_kind player_idx chanceDelta g1

/-- `bot_turns` after its timer gate: the turn entry point.  `roll` is the
injected `thread_rng().gen_range(1..=6)` die roll (only consumed when the
active player is a bot). -/
def bot_turns (roll chanceDelta : Int) (g : Game) : Game :=
  if g.players.isEmpty then g
  else
    let current := g.current_turn % g.players.length
    if (g.players.getD current default).kind ≠ .bot then
      { g with current_turn := (g.current_turn + 1) % g.players.length }
    else
      let g1 := advance_player current roll chanceDelta g
      { g1 with current_turn := (g1.current_turn + 1) % g1.players.length }

/-- `Game::new`: the generated board and the fixed three-player roster. -/
def Game.new : Game :=
  { board := generate_board
    players :=
      [ { (default : PlayerState) with name := "Hero", kind := .human, cash := 2500 },
        { (default : PlayerState) with name := "Bot A", kind := .bot, cash := 2500 },
        { (default : PlayerState) with name := "Bot B", kind := .bot, cash := 2500 } ]
    current_turn := 0
    district_shop_count := fun _ => 0 }

/-- One invocation of the turn entry point with some injected roll and
Chance draw. -/
inductive Step : Game → Game → Prop where
  | turn (roll chanceDelta : Int) (g : Game) : Step g (bot_turns roll chanceDelta g)

/-- Session states reachable from `Game::new` by turn invocations. -/
def Reachable (g : Game) : Prop := Relation.ReflTransGen Step Game.new g

/-- Extract the district of a property tile kind. -/
def tileDistrict : TileKind → Option String
  | .property d _ _ => some d
  | _ => none

/-- A single-player session whose player has collected all four suits and
has net worth -15 (cash -15, no properties, no stocks), about to land on
the Bank tile (tile 0) of the generated board. -/
def gBankNeg : Game :=
  { board := generate_board
    players := [ { (default : PlayerState) with
        name := "P", cash := -15,
        suits := {Suit.spade, Suit.heart, Suit.diamond, Suit.club} } ]
    current_turn := 0
    district_shop_count := fun _ => 0 }

/-- The level-up applied to a player who banks a full suit set: level up,
then pay `bankSalary` of the net worth (computed before the suits are
cleared), then clear the suit set — the Bank arm of `handle_tile`. -/
def bankLevelUp (q : PlayerState) (board : List Tile) : PlayerState :=
  let q1 := { q with level := q.level + 1 }
  { q1 with cash := q1.cash + bankSalary (q1.net_worth board), suits := ∅ }

/-- The three suits that actually occur on the generated board. -/
def goodSuits : Finset Suit := {Suit.spade, Suit.heart, Suit.diamond}

/-- The inductive invariant for the suit/level claims: the board is the
generated board, and every player's collected suits avoid Club while the
level is still 0. -/
def InvC3 (g : Game) : Prop :=
  g.board = generate_board
  ∧ ∀ q ∈ g.players, q.suits ⊆ goodSuits ∧ q.level = 0

/-- Exclusive ownership: no tile index lies in two distinct players'
owned-property sets. -/
def OwnExcl (g : Game) : Prop :=
  ∀ i j, i < g.players.length → j < g.players.length → i ≠ j →
    ∀ x, x ∈ (g.players.getD i default).properties →
      x ∉ (g.players.getD j default).properties

/-- A single-player session whose player has a full suit set and net worth
1000 (cash 1000, no properties, no stocks), about to land on the Bank tile:
the worked example of the specification. -/
def gBank1000 : Game :=
  { board := generate_board
    players := [ { (default : PlayerState) with
        name := "P", cash := 1000,
        suits := {Suit.spade, Suit.heart, Suit.diamond, Suit.club} } ]
    current_turn := 0
    district_shop_count := fun _ => 0 }

/-- The initial session with tile 1 already owned by player 1 ("Bot A"),
for exercising the fee-transfer rule. -/
def gOwned : Game :=
  { board := generate_board
    players :=
      [ { (default : PlayerState) with name := "Hero", kind := .human, cash := 2500 },
        { (default : PlayerState) with name := "Bot A", kind := .bot, cash := 2500, properties := ({1} : Finset Nat) },
        { (default : PlayerState) with name := "Bot B", kind := .bot, cash := 2500 } ]
    current_turn := 0
    district_shop_count := fun _ => 0 }

theorem getD_set_cases {α : Type} (l : List α) (i j : Nat) (a d : α) :
    (l.set i a).getD j d = if j = i ∧ i < l.length then a else l.getD j d := by
  by_cases h1 : j = i
  · subst h1
    by_cases h2 : j < l.length
    · simp [List.getD_eq_getElem?_getD, List.getElem?_set, h2]
    · simp [List.getD_eq_getElem?_getD, List.getElem?_set, h2,
        List.getElem?_eq_none (by omega : l.length ≤ j)]
  · simp [List.getD_eq_getElem?_getD, List.getElem?_set, h1, Ne.symm h1]

theorem proj_getD_set {β : Type} (proj : PlayerState → β)
    (l : List PlayerState) (i j : Nat) (a : PlayerState)
    (ha : proj a = proj (l.getD i default)) :
    proj ((l.set i a).getD j default) = proj (l.getD j default) := by
  rw [getD_set_cases]
  split
  · next h => rcases h with ⟨rfl, -⟩; exact ha
  · rfl

theorem proj_getD_set2 {β : Type} (proj : PlayerState → β)
    (l : List PlayerState) (i1 i2 j : Nat) (a1 a2 : PlayerState)
    (h1 : proj a1 = proj (l.getD i1 default))
    (h2 : proj a2 = proj ((l.set i1 a1).getD i2 default)) :
    proj (((l.set i1 a1).set i2 a2).getD j default) = proj (l.getD j default) :=
  (proj_getD_set proj (l.set i1 a1) i2 j a2 h2).trans (proj_getD_set proj l i1 j a1 h1)

theorem handle_tile_position (t : Nat) (k : TileKind) (p : Nat) (δ : Int) (g : Game)
    (j : Nat) :
    ((handle_tile t k p δ g).players.getD j default).position
      = (g.players.getD j default).position := by
  cases k <;> simp only [handle_tile, setPlayer]
  · split
    · exact proj_getD_set (fun q => q.position) _ _ _ _ rfl
    · rfl
  · split
    · split
      · rfl
      · exact proj_getD_set2 (fun q => q.position) _ _ _ _ _ _ rfl rfl
    · split
      · exact proj_getD_set (fun q => q.position) _ _ _ _ rfl
      · rfl
  · exact proj_getD_set (fun q => q.position) _ _ _ _ rfl
  · exact proj_getD_set (fun q => q.position) _ _ _ _ rfl

theorem handle_tile_board (t : Nat) (k : TileKind) (p : Nat) (δ : Int) (g : Game) :
    (handle_tile t k p δ g).board = g.board := by
  cases k <;> simp only [handle_tile, setPlayer] <;> repeat first | rfl | split

theorem handle_tile_length (t : Nat) (k : TileKind) (p : Nat) (δ : Int) (g : Game) :
    (handle_tile t k p δ g).players.length = g.players.length := by
  cases k <;> simp only [handle_tile, setPlayer] <;>
    repeat first | rfl | simp only [List.length_set] | split

theorem handle_tile_current_turn (t : Nat) (k : TileKind) (p : Nat) (δ : Int) (g : Game) :
    (handle_tile t k p δ g).current_turn = g.current_turn := by
  cases k <;> simp only [handle_tile, setPlayer] <;> repeat first | rfl | split

theorem advance_player_board (p : Nat) (roll δ : Int) (g : Game) :
    (advance_player p roll δ g).board = g.board := by
  simp only [advance_player, setPlayer, handle_tile_board]

theorem advance_player_length (p : Nat) (roll δ : Int) (g : Game) :
    (advance_player p roll δ g).players.length = g.players.length := by
  simp only [advance_player, setPlayer, handle_tile_length, List.length_set]

theorem advance_player_current_turn (p : Nat) (roll δ : Int) (g : Game) :
    (advance_player p roll δ g).current_turn = g.current_turn := by
  simp only [advance_player, setPlayer, handle_tile_current_turn]

theorem bot_turns_board (roll δ : Int) (g : Game) :
    (bot_turns roll δ g).board = g.board := by
  simp only [bot_turns]
  repeat first | rfl | simp only [advance_player_board] | split

theorem bot_turns_length (roll δ : Int) (g : Game) :
    (bot_turns roll δ g).players.length = g.players.length := by
  simp only [bot_turns]
  repeat first | rfl | simp only [advance_player_length] | split

theorem newPosition_mod (pos : Nat) (roll : Int)
    (h1 : pos < 12) (h2 : 1 ≤ roll) (h3 : roll ≤ 2147483647) :
    (newPosition pos roll 12 : Int) = ((pos : Int) + roll) % 12 := by
  unfold newPosition i32ToUsize usizeToI32 wrapI32
  have e1 : ((pos : Int) + 2147483648) % 4294967296 - 2147483648 = (pos : Int) := by
    omega
  rw [e1]
  by_cases hx : (pos : Int) + roll < 2147483648
  · have e2 : ((pos : Int) + roll + 2147483648) % 4294967296 - 2147483648
        = (pos : Int) + roll := by omega
    rw [e2]
    omega
  · have e2 : ((pos : Int) + roll + 2147483648) % 4294967296 - 2147483648
        = (pos : Int) + roll - 4294967296 := by omega
    rw [e2]
    omega

/-- Claim C1 (code bug evidence): the full repeating layout is NOT produced.
The 17-entry kind layout does contain the Club suit tile and the Grove
properties, but `generate_board` zips it with only 12 track coordinates, so
the generated board has 12 tiles and carries neither a Club suit tile nor
any Grove property — contradicting the source's own module documentation,
which says players collect all four suits and level up at the bank. -/
theorem generate_board_drops_grove_and_club :
    layout.length = 17
    ∧ TileKind.suit .club ∈ layout
    ∧ (TileKind.property "Grove" 240 60) ∈ layout
    ∧ generate_board.length = 12
    ∧ (∀ t ∈ generate_board, t.kind ≠ TileKind.suit .club)
    ∧ (∀ t ∈ generate_board, tileDistrict t.kind ≠ some "Grove") := by
  decide

/-- Claim C2 counterexample: the salary is not `500 + floor(0.1 × net_worth)`.
For a player with a full suit set and net worth -15 landing on Bank, the code
computes `(-15 as f32) * 0.1f32 = -1.5` and truncates toward zero to `-1`,
paying 499 and leaving cash 484, while the claim's floor formula gives
`500 + floor(-1.5) = 498` and cash 483. -/
theorem bank_salary_floor_counterexample :
    (gBankNeg.players.getD 0 default).net_worth gBankNeg.board = -15
    ∧ ((handle_tile 0 .bank 0 0 gBankNeg).players.getD 0 default).cash = 484
    ∧ (gBankNeg.players.getD 0 default).cash
        + (500 + Int.fdiv ((gBankNeg.players.getD 0 default).net_worth gBankNeg.board) 10)
      = 483
    ∧ (484 : Int) ≠ 483 := by
  decide

/-- Claim C6: advancing a player by any positive `i32` roll — including
values far beyond a die, where the intermediate 32-bit addition wraps — sets
the new position to `(old_position + roll) mod board_length`, independent of
the tile kind landed on (tile resolution never moves any player). -/
theorem advance_position_modular (g : Game) (p : Nat) (roll δ : Int)
    (hp : p < g.players.length)
    (hb : g.board.length = 12)
    (hpos : (g.players.getD p default).position < 12)
    (h1 : 1 ≤ roll) (h2 : roll ≤ 2147483647) :
    (((advance_player p roll δ g).players.getD p default).position : Int)
      = (((g.players.getD p default).position : Int) + roll) % 12 := by
  simp only [advance_player, setPlayer]
  rw [handle_tile_position]
  rw [getD_set_cases]
  rw [if_pos ⟨rfl, hp⟩]
  rw [hb]
  exact newPosition_mod _ _ hpos h1 h2

theorem getD_mem_prop {P : PlayerState → Prop} (l : List PlayerState) (i : Nat)
    (h : ∀ q ∈ l, P q) (hd : P default) : P (l.getD i default) := by
  by_cases hi : i < l.length
  · rw [List.getD_eq_getElem _ _ hi]
    exact h _ (List.getElem_mem hi)
  · rw [List.getD_eq_getElem?_getD, List.getElem?_eq_none (by omega)]
    exact hd

/-- Claim C4: landing on an unowned property purchases it iff the lander's
cash is at least the price; on success cash drops by exactly the price, the
tile index joins the lander's owned set, the district's shop count rises by
exactly 1, and nothing else changes (other districts, other players, the
lander's other fields, board, turn index); on insufficient cash the session
is left completely unchanged. -/
theorem property_purchase_resolution (g : Game) (t : Nat) (district : String) (price fee δ : Int) (p : Nat)
    (hp : p < g.players.length)
    (hun : g.players.findIdx? (fun q => decide (t ∈ q.properties)) = none) :
    (t ∈ ((handle_tile t (.property district price fee) p δ g).players.getD p default).properties
        ↔ price ≤ (g.players.getD p default).cash)
    ∧ (price ≤ (g.players.getD p default).cash →
        ((handle_tile t (.property district price fee) p δ g).players.getD p default).cash
            = (g.players.getD p default).cash - price
        ∧ ((handle_tile t (.property district price fee) p δ g).players.getD p default).properties
            = insert t (g.players.getD p default).properties
        ∧ (handle_tile t (.property district price fee) p δ g).district_shop_count district
            = g.district_shop_count district + 1
        ∧ (∀ d, d ≠ district →
            (handle_tile t (.property district price fee) p δ g).district_shop_count d
              = g.district_shop_count d)
        ∧ (∀ j, j ≠ p →
            (handle_tile t (.property district price fee) p δ g).players.getD j default
              = g.players.getD j default)
        ∧ ((handle_tile t (.property district price fee) p δ g).players.getD p default).position
            = (g.players.getD p default).position
        ∧ ((handle_tile t (.property district price fee) p δ g).players.getD p default).suits
            = (g.players.getD p default).suits
        ∧ ((handle_tile t (.property district price fee) p δ g).players.getD p default).level
            = (g.players.getD p default).level
        ∧ ((handle_tile t (.property district price fee) p δ g).players.getD p default).stocks
            = (g.players.getD p default).stocks
        ∧ ((handle_tile t (.property district price fee) p δ g).players.getD p default).name
            = (g.players.getD p default).name
        ∧ ((handle_tile t (.property district price fee) p δ g).players.getD p default).kind
            = (g.players.getD p default).kind
        ∧ (handle_tile t (.property district price fee) p δ g).board = g.board
        ∧ (handle_tile t (.property district price fee) p δ g).current_turn = g.current_turn
        ∧ (handle_tile t (.property district price fee) p δ g).players.length
            = g.players.length)
    ∧ ((g.players.getD p default).cash < price →
        handle_tile t (.property district price fee) p δ g = g) := by
  have hnot : ∀ q ∈ g.players, t ∉ q.properties := by
    intro q hq
    simpa using List.findIdx?_eq_none_iff.mp hun q hq
  refine ⟨?_, ?_, ?_⟩
  · by_cases hc : price ≤ (g.players.getD p default).cash
    · simp only [handle_tile, hun, if_pos hc]
      rw [getD_set_cases, if_pos ⟨rfl, hp⟩]
      exact iff_of_true (Finset.mem_insert_self _ _) hc
    · simp only [handle_tile, hun, if_neg hc]
      refine iff_of_false ?_ hc
      rw [List.getD_eq_getElem _ _ hp]
      exact hnot _ (List.getElem_mem hp)
  · intro hc
    simp only [handle_tile, hun, if_pos hc]
    rw [getD_set_cases, if_pos ⟨rfl, hp⟩]
    refine ⟨rfl, rfl, by simp, fun d hd => by simp [hd], fun j hj => ?_, rfl, rfl, rfl, rfl,
      rfl, rfl, trivial, trivial, by simp [List.length_set]⟩
    rw [getD_set_cases, if_neg (fun hcon => hj hcon.1)]
  · intro hc
    simp only [handle_tile, hun, if_neg (not_le.mpr hc)]

theorem findIdx?_owner (l : List PlayerState) (t o : Nat) (ho : o < l.length)
    (hmem : t ∈ (l.getD o default).properties)
    (huniq : ∀ j, j < l.length → j ≠ o → t ∉ (l.getD j default).properties) :
    l.findIdx? (fun q => decide (t ∈ q.properties)) = some o := by
  rw [List.findIdx?_eq_some_iff_findIdx_eq]
  refine ⟨ho, ?_⟩
  rw [List.findIdx_eq ho]
  constructor
  · rw [← List.getD_eq_getElem l default ho]
    simpa using hmem
  · intro j hj
    have hjo : j ≠ o := Nat.ne_of_lt hj
    have := huniq j (lt_trans hj ho) hjo
    rw [← List.getD_eq_getElem l default (lt_trans hj ho)]
    simpa using this

/-- Claim C5: landing on a property owned by another player transfers
exactly `base_fee` from the lander to the owner with no solvency check and
conserves the two players' combined cash, changing nothing else; landing on
one's own property has no effect at all. -/
theorem property_fee_transfer (g : Game) (t : Nat) (district : String) (price fee δ : Int) (p o : Nat)
    (hp : p < g.players.length) (ho : o < g.players.length)
    (hmem : t ∈ (g.players.getD o default).properties)
    (huniq : ∀ j, j < g.players.length → j ≠ o →
      t ∉ (g.players.getD j default).properties) :
    (o ≠ p →
      ((handle_tile t (.property district price fee) p δ g).players.getD p default).cash
          = (g.players.getD p default).cash - fee
      ∧ ((handle_tile t (.property district price fee) p δ g).players.getD o default).cash
          = (g.players.getD o default).cash + fee
      ∧ ((handle_tile t (.property district price fee) p δ g).players.getD p default).cash
          + ((handle_tile t (.property district price fee) p δ g).players.getD o default).cash
          = (g.players.getD p default).cash + (g.players.getD o default).cash
      ∧ (∀ j, j ≠ p → j ≠ o →
          (handle_tile t (.property district price fee) p δ g).players.getD j default
            = g.players.getD j default)
      ∧ ((handle_tile t (.property district price fee) p δ g).players.getD p default).properties
          = (g.players.getD p default).properties
      ∧ ((handle_tile t (.property district price fee) p δ g).players.getD o default).properties
          = (g.players.getD o default).properties
      ∧ ((handle_tile t (.property district price fee) p δ g).players.getD p default).position
          = (g.players.getD p default).position
      ∧ ((handle_tile t (.property district price fee) p δ g).players.getD p default).suits
          = (g.players.getD p default).suits
      ∧ ((handle_tile t (.property district price fee) p δ g).players.getD o default).position
          = (g.players.getD o default).position
      ∧ ((handle_tile t (.property district price fee) p δ g).players.getD o default).suits
          = (g.players.getD o default).suits
      ∧ (handle_tile t (.property district price fee) p δ g).board = g.board
      ∧ (handle_tile t (.property district price fee) p δ g).current_turn = g.current_turn
      ∧ (∀ d, (handle_tile t (.property district price fee) p δ g).district_shop_count d
          = g.district_shop_count d))
    ∧ (o = p → handle_tile t (.property district price fee) p δ g = g) := by
  have hf := findIdx?_owner g.players t o ho hmem huniq
  constructor
  · intro hop
    simp only [handle_tile, hf, if_neg hop]
    have h1 : ((setPlayer (setPlayer g p
        { g.players.getD p default with
          cash := (g.players.getD p default).cash - fee }) o
        { (setPlayer g p { g.players.getD p default with
            cash := (g.players.getD p default).cash - fee }).players.getD o default with
          cash := ((setPlayer g p { g.players.getD p default with
            cash := (g.players.getD p default).cash - fee }).players.getD o default).cash
              + fee }).players.getD p default).cash
        = (g.players.getD p default).cash - fee := by
      simp only [setPlayer]
      rw [getD_set_cases, if_neg (fun h => hop h.1.symm), getD_set_cases, if_pos ⟨rfl, hp⟩]
    have h2 : ((setPlayer (setPlayer g p
        { g.players.getD p default with
          cash := (g.players.getD p default).cash - fee }) o
        { (setPlayer g p { g.players.getD p default with
            cash := (g.players.getD p default).cash - fee }).players.getD o default with
          cash := ((setPlayer g p { g.players.getD p default with
            cash := (g.players.getD p default).cash - fee }).players.getD o default).cash
              + fee }).players.getD o default).cash
        = (g.players.getD o default).cash + fee := by
      simp only [setPlayer]
      rw [getD_set_cases, if_pos ⟨rfl, by rw [List.length_set]; exact ho⟩]
      rw [getD_set_cases, if_neg (fun h => hop h.1)]
    refine ⟨h1, h2, by rw [h1, h2]; ring, fun j hjp hjo => ?_, ?_, ?_, ?_, ?_, ?_, ?_,
      rfl, rfl, fun d => rfl⟩
    · simp only [setPlayer]
      rw [getD_set_cases, if_neg (fun h => hjo h.1), getD_set_cases,
        if_neg (fun h => hjp h.1)]
    · simp only [setPlayer]
      rw [getD_set_cases, if_neg (fun h => hop h.1.symm), getD_set_cases,
        if_pos ⟨rfl, hp⟩]
    · simp only [setPlayer]
      rw [getD_set_cases, if_pos ⟨rfl, by rw [List.length_set]; exact ho⟩]
      rw [getD_set_cases, if_neg (fun h => hop h.1)]
    · simp only [setPlayer]
      rw [getD_set_cases, if_neg (fun h => hop h.1.symm), getD_set_cases,
        if_pos ⟨rfl, hp⟩]
    · simp only [setPlayer]
      rw [getD_set_cases, if_neg (fun h => hop h.1.symm), getD_set_cases,
        if_pos ⟨rfl, hp⟩]
    · simp only [setPlayer]
      rw [getD_set_cases, if_pos ⟨rfl, by rw [List.length_set]; exact ho⟩]
      rw [getD_set_cases, if_neg (fun h => hop h.1)]
    · simp only [setPlayer]
      rw [getD_set_cases, if_pos ⟨rfl, by rw [List.length_set]; exact ho⟩]
      rw [getD_set_cases, if_neg (fun h => hop h.1)]
  · intro hop
    simp only [handle_tile, hf, if_pos hop]

/-- Claim C9: landing on Chance adds the injected draw (the uniform value
from [-150, 200]) directly to the lander's cash, and nothing else in the
session changes. -/
theorem chance_tile_resolution (g : Game) (t p : Nat) (δ : Int)
    (hp : p < g.players.length) (hlo : -150 ≤ δ) (hhi : δ ≤ 200) :
    ((handle_tile t .chance p δ g).players.getD p default).cash
        = (g.players.getD p default).cash + δ
    ∧ ((handle_tile t .chance p δ g).players.getD p default).properties
        = (g.players.getD p default).properties
    ∧ ((handle_tile t .chance p δ g).players.getD p default).suits
        = (g.players.getD p default).suits
    ∧ ((handle_tile t .chance p δ g).players.getD p default).position
        = (g.players.getD p default).position
    ∧ ((handle_tile t .chance p δ g).players.getD p default).level
        = (g.players.getD p default).level
    ∧ ((handle_tile t .chance p δ g).players.getD p default).stocks
        = (g.players.getD p default).stocks
    ∧ ((handle_tile t .chance p δ g).players.getD p default).name
        = (g.players.getD p default).name
    ∧ ((handle_tile t .chance p δ g).players.getD p default).kind
        = (g.players.getD p default).kind
    ∧ (∀ j, j ≠ p → (handle_tile t .chance p δ g).players.getD j default
        = g.players.getD j default)
    ∧ (handle_tile t .chance p δ g).board = g.board
    ∧ (handle_tile t .chance p δ g).current_turn = g.current_turn
    ∧ (∀ d, (handle_tile t .chance p δ g).district_shop_count d
        = g.district_shop_count d) := by
  simp only [handle_tile, setPlayer]
  have hself : ∀ (q : PlayerState),
      (g.players.set p q).getD p default = q := fun q => by
    rw [getD_set_cases, if_pos ⟨rfl, hp⟩]
  refine ⟨by rw [hself], by rw [hself], by rw [hself], by rw [hself], by rw [hself],
    by rw [hself], by rw [hself], by rw [hself], fun j hj => ?_, trivial, trivial,
    fun d => trivial⟩
  rw [getD_set_cases, if_neg (fun h => hj h.1)]

/-- Claim C2 (amended): landing on Bank levels up iff the collected suit set
has size exactly 4; when it fires, the player's record is replaced by the
level-up record (level +1, suit set cleared, cash increased by
`500 + trunc_f32(net_worth × 0.1)` with net worth taken before the suits are
cleared and before the salary is paid), and nothing else in the session
changes; when it does not fire, the landing has no effect at all. -/
theorem bank_tile_resolution (g : Game) (t p : Nat) (δ : Int)
    (hp : p < g.players.length) :
    ((g.players.getD p default).suits.card = 4 →
        handle_tile t .bank p δ g
          = { g with
              players := g.players.set p (bankLevelUp (g.players.getD p default) g.board) })
    ∧ ((g.players.getD p default).suits.card ≠ 4 → handle_tile t .bank p δ g = g) := by
  constructor
  · intro hcard
    simp only [handle_tile, setPlayer, bankLevelUp, if_pos hcard]
  · intro hcard
    simp only [handle_tile, setPlayer, if_neg hcard]

theorem handle_tile_delta_irrel (t : Nat) (k : TileKind) (p : Nat) (δ1 δ2 : Int)
    (g : Game) (hk : k ≠ .chance) :
    handle_tile t k p δ1 g = handle_tile t k p δ2 g := by
  cases k <;> first | rfl | exact absurd rfl hk

/-- Claim C10: turn resolution is a pure, deterministic function of
(session, player index, roll, chance draw): equal sessions with equal
inputs resolve to equal sessions, and the chance draw is the only
randomness consumed — when the landing tile is not Chance the result does
not depend on the draw at all. -/
theorem turn_resolution_deterministic :
    (∀ (g1 g2 : Game) (p : Nat) (roll δ : Int), g1 = g2 →
      advance_player p roll δ g1 = advance_player p roll δ g2)
    ∧ (∀ (g : Game) (p : Nat) (roll δ1 δ2 : Int), p < g.players.length →
      (g.board.getD
          (newPosition (g.players.getD p default).position roll g.board.length)
          default).kind ≠ .chance →
      advance_player p roll δ1 g = advance_player p roll δ2 g) := by
  constructor
  · intro g1 g2 p roll δ h
    rw [h]
  · intro g p roll δ1 δ2 hp hk
    simp only [advance_player, setPlayer]
    rw [getD_set_cases, if_pos ⟨rfl, hp⟩]
    exact handle_tile_delta_irrel _ _ _ _ _ _ hk

theorem board_kind_good (i : Nat) (s : Suit) :
    (generate_board.getD i default).kind = .suit s → s ∈ goodSuits := by
  by_cases hi : i < generate_board.length
  · intro h
    have hmem : generate_board.getD i default ∈ generate_board := by
      rw [List.getD_eq_getElem _ _ hi]
      exact List.getElem_mem hi
    exact (by decide :
      ∀ t ∈ generate_board, ∀ s : Suit, t.kind = TileKind.suit s → s ∈ goodSuits)
      _ hmem s h
  · rw [List.getD_eq_getElem?_getD, List.getElem?_eq_none (by omega)]
    exact fun h => TileKind.noConfusion h

theorem forall_mem_set {P : PlayerState → Prop} (l : List PlayerState) (i : Nat)
    (a : PlayerState) (h : ∀ q ∈ l, P q) (ha : P a) : ∀ q ∈ l.set i a, P q :=
  fun q hq => (List.mem_or_eq_of_mem_set hq).elim (h q) (fun e => e ▸ ha)

theorem suits_card_ne_four {q : PlayerState} (h : q.suits ⊆ goodSuits) :
    q.suits.card ≠ 4 := by
  have := Finset.card_le_card h
  have hg : goodSuits.card = 3 := by decide
  omega

theorem handle_tile_presC3 (t : Nat) (k : TileKind) (p : Nat) (δ : Int) (g : Game)
    (hg : ∀ q ∈ g.players, q.suits ⊆ goodSuits ∧ q.level = 0)
    (hk : ∀ s, k = TileKind.suit s → s ∈ goodSuits) :
    ∀ q ∈ (handle_tile t k p δ g).players, q.suits ⊆ goodSuits ∧ q.level = 0 := by
  have hgd : ∀ i, (g.players.getD i default).suits ⊆ goodSuits
      ∧ (g.players.getD i default).level = 0 :=
    fun i => getD_mem_prop g.players i hg (by constructor <;> simp [default])
  cases k with
  | bank =>
      simp only [handle_tile]
      rw [if_neg (suits_card_ne_four (hgd p).1)]
      exact hg
  | property district price fee =>
      cases hf : g.players.findIdx? (fun q => decide (t ∈ q.properties)) with
      | none =>
          simp only [handle_tile, hf]
          split
          · exact forall_mem_set _ _ _ hg ⟨(hgd p).1, (hgd p).2⟩
          · exact hg
      | some o =>
          simp only [handle_tile, hf]
          split
          · exact hg
          · simp only [setPlayer]
            have h2 : ∀ q ∈ g.players.set p
                { g.players.getD p default with
                  cash := (g.players.getD p default).cash - fee },
                q.suits ⊆ goodSuits ∧ q.level = 0 :=
              forall_mem_set _ _ _ hg ⟨(hgd p).1, (hgd p).2⟩
            exact forall_mem_set _ _ _ h2
              (getD_mem_prop _ o h2 (by constructor <;> simp [default]))
  | suit s =>
      simp only [handle_tile, setPlayer]
      refine forall_mem_set _ _ _ hg ⟨?_, (hgd p).2⟩
      exact Finset.insert_subset (hk s rfl) (hgd p).1
  | chance =>
      simp only [handle_tile, setPlayer]
      exact forall_mem_set _ _ _ hg ⟨(hgd p).1, (hgd p).2⟩

theorem advance_presC3 (p : Nat) (roll δ : Int) (g : Game) (hg : InvC3 g) :
    InvC3 (advance_player p roll δ g) := by
  obtain ⟨hb, hplayers⟩ := hg
  constructor
  · rw [advance_player_board, hb]
  · simp only [advance_player, setPlayer]
    apply handle_tile_presC3
    · refine forall_mem_set _ _ _ hplayers ?_
      exact getD_mem_prop g.players p hplayers (by constructor <;> simp [default])
    · intro s hs
      exact board_kind_good _ s (hb ▸ hs)

theorem bot_turns_presC3 (roll δ : Int) (g : Game) (hg : InvC3 g) :
    InvC3 (bot_turns roll δ g) := by
  simp only [bot_turns]
  split
  · exact hg
  · split
    · exact ⟨hg.1, hg.2⟩
    · have h1 := advance_presC3 (g.current_turn % g.players.length) roll δ g hg
      exact ⟨h1.1, h1.2⟩

theorem InvC3_new : InvC3 Game.new := by
  constructor
  · rfl
  · intro q hq
    fin_cases hq <;> constructor <;> simp [default, Game.new]

theorem reachable_InvC3 (g : Game) (h : Reachable g) : InvC3 g := by
  induction h with
  | refl => exact InvC3_new
  | tail hsub hstep ih =>
      cases hstep with
      | turn roll δ g' => exact bot_turns_presC3 roll δ _ ih

theorem handle_tile_suits_mono (t : Nat) (k : TileKind) (p : Nat) (δ : Int) (g : Game)
    (hg : ∀ q ∈ g.players, q.suits ⊆ goodSuits) (j : Nat) :
    (g.players.getD j default).suits ⊆ ((handle_tile t k p δ g).players.getD j default).suits := by
  have hgd : ∀ i, (g.players.getD i default).suits ⊆ goodSuits :=
    fun i => getD_mem_prop g.players i hg (by simp [default])
  cases k with
  | bank =>
      simp only [handle_tile]
      rw [if_neg (suits_card_ne_four (hgd p))]
  | property district price fee =>
      cases hf : g.players.findIdx? (fun q => decide (t ∈ q.properties)) with
      | none =>
          simp only [handle_tile, hf]
          split
          · rw [getD_set_cases]
            split
            · next h => rcases h with ⟨rfl, -⟩; exact Finset.Subset.refl _
            · exact Finset.Subset.refl _
          · exact Finset.Subset.refl _
      | some o =>
          simp only [handle_tile, hf]
          split
          · exact Finset.Subset.refl _
          · simp only [setPlayer]
            rw [getD_set_cases]
            split
            · next h =>
                rcases h with ⟨rfl, -⟩
                rw [getD_set_cases]
                split
                · next h2 => rcases h2 with ⟨rfl, -⟩; exact Finset.Subset.refl _
                · exact Finset.Subset.refl _
            · rw [getD_set_cases]
              split
              · next h2 => rcases h2 with ⟨rfl, -⟩; exact Finset.Subset.refl _
              · exact Finset.Subset.refl _
  | suit s =>
      simp only [handle_tile, setPlayer]
      rw [getD_set_cases]
      split
      · next h => rcases h with ⟨rfl, -⟩; exact Finset.subset_insert _ _
      · exact Finset.Subset.refl _
  | chance =>
      simp only [handle_tile, setPlayer]
      rw [getD_set_cases]
      split
      · next h => rcases h with ⟨rfl, -⟩; exact Finset.Subset.refl _
      · exact Finset.Subset.refl _

theorem advance_suits_mono (p : Nat) (roll δ : Int) (g : Game)
    (hplayers : ∀ q ∈ g.players, q.suits ⊆ goodSuits) (j : Nat) :
    (g.players.getD j default).suits
      ⊆ ((advance_player p roll δ g).players.getD j default).suits := by
  simp only [advance_player, setPlayer]
  have heq : ((g.players.set p
      { g.players.getD p default with
        position := newPosition (g.players.getD p default).position roll
          g.board.length }).getD j default).suits
      = (g.players.getD j default).suits :=
    proj_getD_set (fun q => q.suits) _ _ _ _ rfl
  have hforall : ∀ q ∈ g.players.set p
      { g.players.getD p default with
        position := newPosition (g.players.getD p default).position roll
          g.board.length }, q.suits ⊆ goodSuits :=
    forall_mem_set _ _ _ hplayers
      (getD_mem_prop g.players p hplayers (by simp [default]))
  exact Finset.Subset.trans (Finset.subset_of_eq heq.symm)
    (handle_tile_suits_mono _ _ p δ
      ({ g with players := g.players.set p ({ g.players.getD p default with
          position := newPosition (g.players.getD p default).position roll
            g.board.length }) })
      hforall j)

theorem bot_turns_suits_mono (roll δ : Int) (g : Game) (hg : InvC3 g) (j : Nat) :
    (g.players.getD j default).suits
      ⊆ ((bot_turns roll δ g).players.getD j default).suits := by
  simp only [bot_turns]
  split
  · exact Finset.Subset.refl _
  · split
    · exact Finset.Subset.refl _
    · exact advance_suits_mono _ roll δ g (fun q hq => (hg.2 q hq).1) j

theorem OwnExcl_of_props_eq (g g' : Game)
    (hlen : g'.players.length = g.players.length)
    (hprops : ∀ i, (g'.players.getD i default).properties
      = (g.players.getD i default).properties)
    (hg : OwnExcl g) : OwnExcl g' := by
  intro i j hi hj hij x hx
  rw [hprops] at hx
  rw [hprops]
  exact hg i j (hlen ▸ hi) (hlen ▸ hj) hij x hx

theorem handle_tile_presOwn (t : Nat) (k : TileKind) (p : Nat) (δ : Int) (g : Game)
    (hg : OwnExcl g) : OwnExcl (handle_tile t k p δ g) := by
  cases k with
  | bank =>
      refine OwnExcl_of_props_eq g _ (handle_tile_length _ _ _ _ _) (fun i => ?_) hg
      simp only [handle_tile, setPlayer]
      split
      · exact proj_getD_set (fun q => q.properties) _ _ _ _ rfl
      · rfl
  | suit s =>
      refine OwnExcl_of_props_eq g _ (handle_tile_length _ _ _ _ _) (fun i => ?_) hg
      simp only [handle_tile, setPlayer]
      exact proj_getD_set (fun q => q.properties) _ _ _ _ rfl
  | chance =>
      refine OwnExcl_of_props_eq g _ (handle_tile_length _ _ _ _ _) (fun i => ?_) hg
      simp only [handle_tile, setPlayer]
      exact proj_getD_set (fun q => q.properties) _ _ _ _ rfl
  | property district price fee =>
      cases hf : g.players.findIdx? (fun q => decide (t ∈ q.properties)) with
      | some o =>
          refine OwnExcl_of_props_eq g _ (handle_tile_length _ _ _ _ _) (fun i => ?_) hg
          simp only [handle_tile, hf, setPlayer]
          split
          · rfl
          · exact proj_getD_set2 (fun q => q.properties) _ _ _ _ _ _ rfl rfl
      | none =>
          have hnone : ∀ q ∈ g.players, t ∉ q.properties := by
            intro q hq
            simpa using List.findIdx?_eq_none_iff.mp hf q hq
          have hnoneD : ∀ i, i < g.players.length →
              t ∉ (g.players.getD i default).properties := by
            intro i hi
            rw [List.getD_eq_getElem _ _ hi]
            exact hnone _ (List.getElem_mem hi)
          simp only [handle_tile, hf]
          split
          · intro i j hi hj hij x hx
            simp only [List.length_set] at hi hj
            rw [getD_set_cases] at hx
            rw [getD_set_cases]
            by_cases hip : i = p
            · subst hip
              rw [if_pos ⟨rfl, hi⟩] at hx
              have hx' : x = t ∨ x ∈ (g.players.getD i default).properties := by
                simpa using hx
              rw [if_neg (fun hcon => hij hcon.1.symm)]
              rcases hx' with rfl | hx2
              · exact hnoneD j hj
              · exact hg i j hi hj hij x hx2
            · rw [if_neg (fun hcon => hip hcon.1)] at hx
              by_cases hjp : j = p
              · subst hjp
                rw [if_pos ⟨rfl, hj⟩]
                intro hmem
                have hmem' : x = t ∨ x ∈ (g.players.getD j default).properties := by
                  simpa using hmem
                rcases hmem' with rfl | hmem2
                · exact hnoneD i hi hx
                · exact hg i j hi hj hij x hx hmem2
              · rw [if_neg (fun hcon => hjp hcon.1)]
                exact hg i j hi hj hij x hx
          · exact hg

theorem advance_presOwn (p : Nat) (roll δ : Int) (g : Game) (hg : OwnExcl g) :
    OwnExcl (advance_player p roll δ g) := by
  simp only [advance_player, setPlayer]
  refine handle_tile_presOwn _ _ p δ
    ({ g with players := g.players.set p ({ g.players.getD p default with
        position := newPosition (g.players.getD p default).position roll
          g.board.length }) }) ?_
  refine OwnExcl_of_props_eq g _ (List.length_set _ _ _) (fun i => ?_) hg
  exact proj_getD_set (fun q => q.properties) _ _ _ _ rfl

theorem bot_turns_presOwn (roll δ : Int) (g : Game) (hg : OwnExcl g) :
    OwnExcl (bot_turns roll δ g) := by
  simp only [bot_turns]
  split
  · exact hg
  · split
    · exact OwnExcl_of_props_eq g _ rfl (fun i => rfl) hg
    · refine OwnExcl_of_props_eq (advance_player (g.current_turn % g.players.length) roll δ g)
        _ rfl (fun i => rfl) (advance_presOwn _ roll δ g hg)

theorem OwnExcl_new : OwnExcl Game.new := by
  intro i j hi hj hij x hx
  have h0 : (Game.new.players.getD i default).properties = ∅ :=
    @getD_mem_prop (fun q => q.properties = ∅) Game.new.players i (by decide)
      (by simp [default])
  rw [h0] at hx
  exact absurd hx (Finset.not_mem_empty x)

theorem reachable_OwnExcl (g : Game) (h : Reachable g) : OwnExcl g := by
  induction h with
  | refl => exact OwnExcl_new
  | tail hsub hstep ih =>
      cases hstep with
      | turn roll δ g' => exact bot_turns_presOwn roll δ _ ih

theorem bot_turns_ct (roll δ : Int) (g : Game) (h : g.players ≠ []) :
    (bot_turns roll δ g).current_turn = (g.current_turn + 1) % g.players.length := by
  simp only [bot_turns]
  rw [if_neg (by simp [h])]
  split
  · rfl
  · simp only [advance_player_current_turn, advance_player_length]

theorem bot_turns_ne_nil (roll δ : Int) (g : Game) (h : g.players ≠ []) :
    (bot_turns roll δ g).players ≠ [] := by
  have hlen := bot_turns_length roll δ g
  intro hcon
  rw [hcon] at hlen
  exact h (List.eq_nil_of_length_eq_zero hlen.symm)

theorem fold_turns_ct (l : List (Int × Int)) : ∀ g : Game, g.players ≠ [] →
    ((l.foldl (fun h rd => bot_turns rd.1 rd.2 h) g).current_turn % g.players.length
        = (g.current_turn + l.length) % g.players.length
      ∧ (l.foldl (fun h rd => bot_turns rd.1 rd.2 h) g).players.length
        = g.players.length
      ∧ (l ≠ [] →
          (l.foldl (fun h rd => bot_turns rd.1 rd.2 h) g).current_turn
            < g.players.length)) := by
  induction l with
  | nil =>
      intro g hg
      exact ⟨by simp, rfl, fun hcon => absurd rfl hcon⟩
  | cons rd l' ih =>
      intro g hg
      have hlen0 : 0 < g.players.length := List.length_pos.mpr hg
      obtain ⟨ihct, ihlen, ihlt⟩ := ih (bot_turns rd.1 rd.2 g) (bot_turns_ne_nil _ _ g hg)
      rw [bot_turns_length] at ihct ihlen ihlt
      rw [bot_turns_ct _ _ g hg] at ihct
      constructor
      · simp only [List.foldl_cons]
        rw [ihct, Nat.mod_add_mod, List.length_cons]
        congr 1
        omega
      constructor
      · simp only [List.foldl_cons]
        exact ihlen
      · intro _
        simp only [List.foldl_cons]
        by_cases hl : l' = []
        · subst hl
          simp only [List.foldl_nil]
          rw [bot_turns_ct _ _ g hg]
          exact Nat.mod_lt _ hlen0
        · exact ihlt hl

/-- Claim C8 (amended): the turn entry point is a no-op on an empty roster;
on a non-empty roster it always advances the active-turn index by exactly
one modulo the player count; it resolves the active player's move via the
Turn Engine only when that player is a Bot, and merely rotates when the
active player is Human; after exactly `player_count` invocations the
active-turn index returns to its starting value. -/
theorem turn_entry_rotation :
    (∀ (roll δ : Int) (g : Game), g.players = [] → bot_turns roll δ g = g)
    ∧ (∀ (roll δ : Int) (g : Game), g.players ≠ [] →
        (bot_turns roll δ g).current_turn = (g.current_turn + 1) % g.players.length)
    ∧ (∀ (roll δ : Int) (g : Game), g.players ≠ [] →
        (g.players.getD (g.current_turn % g.players.length) default).kind = .bot →
        bot_turns roll δ g
          = { advance_player (g.current_turn % g.players.length) roll δ g with
              current_turn := (g.current_turn + 1) % g.players.length })
    ∧ (∀ (roll δ : Int) (g : Game), g.players ≠ [] →
        (g.players.getD (g.current_turn % g.players.length) default).kind ≠ .bot →
        bot_turns roll δ g = { g with current_turn := (g.current_turn + 1) % g.players.length })
    ∧ (∀ (l : List (Int × Int)) (g : Game), g.players ≠ [] →
        g.current_turn < g.players.length → l.length = g.players.length →
        (l.foldl (fun h rd => bot_turns rd.1 rd.2 h) g).current_turn = g.current_turn) := by
  refine ⟨?_, ?_, ?_, ?_, ?_⟩
  · intro roll δ g h
    simp only [bot_turns]
    rw [if_pos (by simp [h])]
  · exact fun roll δ g h => bot_turns_ct roll δ g h
  · intro roll δ g h hbot
    simp only [bot_turns]
    rw [if_neg (by simp [h]), if_neg (fun hcon => hcon hbot)]
    have h1 : (advance_player (g.current_turn % g.players.length) roll δ g).current_turn
        = g.current_turn := advance_player_current_turn _ _ _ _
    have h2 : (advance_player (g.current_turn % g.players.length) roll δ g).players.length
        = g.players.length := advance_player_length _ _ _ _
    rw [h1, h2]
  · intro roll δ g h hk
    simp only [bot_turns]
    rw [if_neg (by simp [h]), if_pos hk]
  · intro l g hne hct hlenEq
    obtain ⟨hmod, hflen, hlt⟩ := fold_turns_ct l g hne
    have hlen0 : 0 < g.players.length := List.length_pos.mpr hne
    have hlne : l ≠ [] := by
      intro hcon
      rw [hcon] at hlenEq
      simp at hlenEq
      omega
    have hlt' := hlt hlne
    calc (l.foldl (fun h rd => bot_turns rd.1 rd.2 h) g).current_turn
        = (l.foldl (fun h rd => bot_turns rd.1 rd.2 h) g).current_turn
            % g.players.length := (Nat.mod_eq_of_lt hlt').symm
      _ = (g.current_turn + l.length) % g.players.length := hmod
      _ = (g.current_turn + g.players.length) % g.players.length := by rw [hlenEq]
      _ = g.current_turn % g.players.length := Nat.add_mod_right _ _
      _ = g.current_turn := Nat.mod_eq_of_lt hct

/-- Claim C8 counterexample: with the initial session (active player Hero,
a Human, at position 0) an invocation with roll 3 does NOT resolve the move
— Hero stays at position 0 although the Turn Engine would move them to 3 —
while the index still rotates to 1. -/
theorem turn_entry_human_counterexample :
    ((bot_turns 3 0 Game.new).players.getD 0 default).position = 0
    ∧ ((advance_player 0 3 0 Game.new).players.getD 0 default).position = 3
    ∧ (0 : Nat) ≠ 3
    ∧ (bot_turns 3 0 Game.new).current_turn = 1 := by
  decide

/-- Claim C3: no tile of the generated board carries the Club suit, so in
every session state reachable from `Game::new` every player's suit set stays
within {Spade, Heart, Diamond} (size at most 3), every level stays 0 (the
Bank level-up branch never executes), and collected suits are never cleared
(each player's suit set only grows across a turn). -/
theorem reachable_no_club_no_levelup :
    (∀ t ∈ generate_board, t.kind ≠ TileKind.suit .club)
    ∧ (∀ g, Reachable g → ∀ q ∈ g.players,
        q.suits ⊆ goodSuits ∧ q.suits.card ≤ 3 ∧ q.level = 0)
    ∧ (∀ g, Reachable g → ∀ (roll δ : Int) (j : Nat),
        (g.players.getD j default).suits
          ⊆ ((bot_turns roll δ g).players.getD j default).suits) := by
  refine ⟨by decide, ?_, ?_⟩
  · intro g hg q hq
    have h := (reachable_InvC3 g hg).2 q hq
    exact ⟨h.1, le_trans (Finset.card_le_card h.1) (by decide), h.2⟩
  · intro g hg roll δ j
    exact bot_turns_suits_mono roll δ g (reachable_InvC3 g hg) j

/-- Witness for C3's theorem after one concrete turn from the initial
session. -/
theorem reachable_no_club_no_levelup_witness :
    ((bot_turns 5 3 Game.new).players.getD 1 default).level = 0
    ∧ ((bot_turns 5 3 Game.new).players.getD 1 default).suits.card ≤ 3 := by
  have hr : Reachable (bot_turns 5 3 Game.new) :=
    Relation.ReflTransGen.tail Relation.ReflTransGen.refl (Step.turn 5 3 Game.new)
  have h := reachable_no_club_no_levelup.2.1 (bot_turns 5 3 Game.new) hr
    ((bot_turns 5 3 Game.new).players.getD 1 default) (by decide)
  exact ⟨h.2.2, h.2.1⟩

/-- Claim C7: exclusive ownership is an invariant of every reachable
session state — no tile index ever lies in two distinct players'
owned-property sets. -/
theorem ownership_exclusive (g : Game) (hg : Reachable g) :
    ∀ i j, i < g.players.length → j < g.players.length → i ≠ j →
      ∀ x, x ∈ (g.players.getD i default).properties →
        x ∉ (g.players.getD j default).properties :=
  reachable_OwnExcl g hg

/-- Witness for C7's theorem after two concrete turns: Bot A owns tile 1
and Hero does not. -/
theorem ownership_exclusive_witness :
    (1 : Nat) ∈ ((bot_turns 1 0 (bot_turns 1 0 Game.new)).players.getD 1 default).properties
    ∧ (1 : Nat) ∉ ((bot_turns 1 0 (bot_turns 1 0 Game.new)).players.getD 0 default).properties := by
  have hr : Reachable (bot_turns 1 0 (bot_turns 1 0 Game.new)) :=
    Relation.ReflTransGen.tail
      (Relation.ReflTransGen.tail Relation.ReflTransGen.refl (Step.turn 1 0 Game.new))
      (Step.turn 1 0 (bot_turns 1 0 Game.new))
  refine ⟨by decide, ?_⟩
  exact ownership_exclusive _ hr 1 0 (by decide) (by decide) (by decide) 1 (by decide)

/-- Witness for C2's theorem at the spec's worked example: a full-suit player
with net worth 1000 banks salary 600, reaching cash 1600, level 1, and an
empty suit set. -/
theorem bank_tile_resolution_witness :
    ((handle_tile 0 .bank 0 0 gBank1000).players.getD 0 default).cash = 1600
    ∧ ((handle_tile 0 .bank 0 0 gBank1000).players.getD 0 default).level = 1
    ∧ ((handle_tile 0 .bank 0 0 gBank1000).players.getD 0 default).suits = ∅ := by
  have h := (bank_tile_resolution gBank1000 0 0 0 (by decide)).1 (by decide)
  rw [h]
  decide

/-- Witness for C4's theorem: the spec's worked example — cash 2500 buys the
Downtown tile of price 300, leaving 2200 and shop count 1. -/
theorem property_purchase_resolution_witness :
    ((handle_tile 1 (.property "Downtown" 300 80) 0 0 Game.new).players.getD 0 default).cash
      = 2200
    ∧ (handle_tile 1 (.property "Downtown" 300 80) 0 0 Game.new).district_shop_count
        "Downtown" = 1
    ∧ (1 : Nat) ∈ ((handle_tile 1 (.property "Downtown" 300 80) 0 0
        Game.new).players.getD 0 default).properties := by
  have h := property_purchase_resolution Game.new 1 "Downtown" 300 80 0 0 (by decide) (by decide)
  refine ⟨?_, ?_, ?_⟩
  · rw [(h.2.1 (by decide)).1]
    decide
  · rw [(h.2.1 (by decide)).2.2.1]
    decide
  · exact h.1.mpr (by decide)

/-- Witness for C5's theorem: the lander pays 80 to the owner of the
Downtown tile; combined cash is conserved. -/
theorem property_fee_transfer_witness :
    ((handle_tile 1 (.property "Downtown" 300 80) 0 0 gOwned).players.getD 0 default).cash
      = 2420
    ∧ ((handle_tile 1 (.property "Downtown" 300 80) 0 0 gOwned).players.getD 1 default).cash
      = 2580
    ∧ ((handle_tile 1 (.property "Downtown" 300 80) 0 0 gOwned).players.getD 0 default).cash
        + ((handle_tile 1 (.property "Downtown" 300 80) 0 0 gOwned).players.getD 1 default).cash
      = (gOwned.players.getD 0 default).cash + (gOwned.players.getD 1 default).cash := by
  have huniq : ∀ j, j < gOwned.players.length → j ≠ 1 →
      (1 : Nat) ∉ (gOwned.players.getD j default).properties := by
    intro j hj hjo
    have hj3 : j < 3 := by simpa [gOwned] using hj
    interval_cases j
    · decide
    · exact absurd rfl hjo
    · decide
  have h := (property_fee_transfer gOwned 1 "Downtown" 300 80 0 0 1 (by decide) (by decide)
    (by decide) huniq).1 (by decide)
  refine ⟨?_, ?_, ?_⟩
  · rw [h.1]; decide
  · rw [h.2.1]; decide
  · rw [h.2.2.1]

/-- Witness for C6's theorem at the extreme roll `i32::MAX`. -/
theorem advance_position_modular_witness :
    (((advance_player 0 2147483647 0 Game.new).players.getD 0 default).position : Int)
      = (((Game.new.players.getD 0 default).position : Int) + 2147483647) % 12 :=
  advance_position_modular Game.new 0 2147483647 0 (by decide) (by decide) (by decide)
    (by decide) (by decide)

/-- Witness for C8's theorem: one invocation on the initial session rotates
the active-turn index by one. -/
theorem turn_entry_rotation_witness :
    (bot_turns 4 7 Game.new).current_turn
      = (Game.new.current_turn + 1) % Game.new.players.length :=
  turn_entry_rotation.2.1 4 7 Game.new (by decide)

/-- Witness for C9's theorem at the extreme draw -150. -/
theorem chance_tile_resolution_witness :
    ((handle_tile 4 .chance 0 (-150) Game.new).players.getD 0 default).cash = 2350 := by
  have h := chance_tile_resolution Game.new 4 0 (-150) (by decide) (by decide) (by decide)
  rw [h.1]
  decide

/-- Witness for C10's theorem: two different draws give identical sessions
when the landing tile is a property. -/
theorem turn_resolution_deterministic_witness :
    advance_player 0 1 7 Game.new = advance_player 0 1 (-3) Game.new :=
  turn_resolution_deterministic.2 Game.new 0 1 7 (-3) (by decide) (by decide)
